import Mathlib

/-!
Verification development for the claude-priors bootstrapper.

The program consists of a Node CLI (`bin/cli.js`, commands `init` and
`status`) and a functionally similar shell script (`install.sh`).  File
contents are modelled as lists of characters (`Str`), and the filesystem
state touched by the program as a record of the relevant paths (`FS`).
JavaScript string operations used by the source (`includes`, `trim`,
`trimEnd`, `endsWith`, `replace`, and the three frontmatter regular
expressions) are embedded as executable functions over `Str`.
-/

set_option linter.unusedVariables false
set_option maxRecDepth 100000

/-- File contents, modelled as a list of characters. -/
abbrev Str := List Char

/-- Coerce a Lean string literal to the character-list model. -/
def ofStr (s : String) : Str := s.data

/-- Whether `p` is an initial segment of `s` (helper for substring search). -/
def isPre : Str → Str → Bool
  | [], _ => true
  | _ :: _, [] => false
  | a :: p, b :: s => a = b && isPre p s

/-- JavaScript `String.prototype.includes(pat)`: `pat` occurs as a
contiguous substring of `s`. -/
def hasSub (pat : Str) : Str → Bool
  | [] => isPre pat []
  | c :: rest => isPre pat (c :: rest) || hasSub pat rest

/-- A search pattern in which `none` matches any single character
(used for the `grep -q ".claude/priors/"` call of the shell script, where the
unescaped leading dot is a regex wildcard). -/
abbrev Pat := List (Option Char)

/-- Whether the wildcard pattern matches an initial segment of `s`. -/
def isPreP : Pat → Str → Bool
  | [], _ => true
  | _ :: _, [] => false
  | a :: p, b :: s => (match a with | none => true | some x => x = b) && isPreP p s

/-- Whether the wildcard pattern matches some contiguous substring of `s`
(BRE substring semantics of `grep`). -/
def hasSubP (pat : Pat) : Str → Bool
  | [] => isPreP pat []
  | c :: rest => isPreP pat (c :: rest) || hasSubP pat rest

/-- The JavaScript whitespace class used by `trim`/`trimEnd` and by the
regex escape `\s`: tab through carriage return, space, NBSP, the Unicode
space separators, the two line separators, and the BOM. -/
def isJsSpace (c : Char) : Bool :=
  (9 ≤ c.toNat && c.toNat ≤ 13) || c.toNat = 32 || c.toNat = 160 ||
  c.toNat = 0x1680 || (0x2000 ≤ c.toNat && c.toNat ≤ 0x200a) ||
  c.toNat = 0x2028 || c.toNat = 0x2029 || c.toNat = 0x202f ||
  c.toNat = 0x205f || c.toNat = 0x3000 || c.toNat = 0xfeff

/-- JavaScript `trimStart`. -/
def trimStart (s : Str) : Str := s.dropWhile isJsSpace

/-- JavaScript `trimEnd`. -/
def trimEnd (s : Str) : Str := (s.reverse.dropWhile isJsSpace).reverse

/-- JavaScript `trim`. -/
def trim (s : Str) : Str := trimEnd (trimStart s)

/-- JavaScript `s.endsWith(suffix)`. -/
def endsWith (suffix s : Str) : Bool := isPre suffix.reverse s.reverse

/-- JavaScript `s.replace(pat, repl)` with a string pattern: replace the
first occurrence only; return `s` unchanged when `pat` does not occur. -/
def replaceFirst (pat repl : Str) : Str → Str
  | [] => if isPre pat [] then repl else []
  | c :: rest =>
    if isPre pat (c :: rest) then repl ++ (c :: rest).drop pat.length
    else c :: replaceFirst pat repl rest

/-- Decimal value of a digit string (JavaScript `parseInt` on the digits
captured by `\d+`). -/
def natOfDigits (s : Str) : Nat := s.foldl (fun a c => a * 10 + (c.toNat - 48)) 0

/-- Split on newline characters (used only to state the spec-side notion
of a metadata block delimited by whole lines). -/
def splitNl : Str → List Str
  | [] => [[]]
  | c :: rest =>
    match splitNl rest with
    | [] => [[]]
    | l :: ls => if c = '\n' then [] :: l :: ls else (c :: l) :: ls

/-- The marker heading `PRIORS_MARKER`, the text `## Priors`, from
cli.js (the shell script uses the identical value). -/
def PRIORS_MARKER : Str := ofStr "## Priors"

/-- The bootstrap fragment inlined in install.sh as `BOOTSTRAP_TEXT`
(shell quote escapes resolved to apostrophes). -/
def BOOTSTRAP_TEXT : Str := ofStr "\n## Priors\n\nThis project uses agent priors (`.claude/priors/`) — persistent knowledge the agent accumulates across sessions.\n\n**Start of every task:** List `.claude/priors/` and read each file\x27s YAML frontmatter (`topic`, `summary`). Load full content only for files relevant to the current task.\n\n**End of every conversation** where you were corrected, discovered something unexpected, or the user provided context you couldn\x27t derive from code: load the `knowledge-extraction` skill from `.claude/skills/` and extract priors."

/-- The filesystem state touched by the program, one field per path the
two installers read or write.  `none` means the file does not exist;
`priorsFiles` is the directory listing of `.claude/priors/` beside the
`.gitkeep` marker (name, content). -/
@[ext]
structure FS where
  priorsDir : Bool
  priorsFiles : List (Str × Str)
  gitkeep : Option Str
  skillDir : Bool
  skillFile : Option Str
  globalSkillDir : Bool
  globalSkillFile : Option Str
  claudeMd : Option Str
  agentsMd : Option Str
  gitignore : Option Str
  deriving DecidableEq, Repr

/-- The empty project directory: nothing exists yet. -/
def FS0 : FS :=
  { priorsDir := false, priorsFiles := [], gitkeep := none,
    skillDir := false, skillFile := none,
    globalSkillDir := false, globalSkillFile := none,
    claudeMd := none, agentsMd := none, gitignore := none }

/-- cli.js step 3 append: `existing.trimEnd()`, a blank line, the
trimmed bootstrap content, and a final newline. -/
def bootstrapInto (bootstrap existing : Str) : Str :=
  trimEnd existing ++ ofStr "\n\n" ++ trim bootstrap ++ ofStr "\n"

/-- Log line `  <file> already has priors bootstrap`. -/
def msgAlreadyHas (f : String) : String := "  " ++ f ++ " already has priors bootstrap"

/-- Log line `  Appended priors bootstrap to <file>`. -/
def msgAppended (f : String) : String := "  Appended priors bootstrap to " ++ f

/-- Log line `  Created <file> with priors bootstrap`. -/
def msgCreatedInstr (f : String) : String := "  Created " ++ f ++ " with priors bootstrap"

/-- Log line for a fresh reference-document copy (cli.js step 2). -/
def msgCreatedSkill (globalFlag : Bool) : String :=
  "  Created " ++ (if globalFlag then "~/.claude/skills" else ".claude/skills") ++
    "/knowledge-extraction/SKILL.md"

/-- cli.js `init` step 1: create `.claude/priors/` and its `.gitkeep` if
the directory is absent. -/
def step1 (fs : FS) : FS × String :=
  if fs.priorsDir then (fs, "  .claude/priors/ already exists")
  else ({ fs with priorsDir := true, priorsFiles := [], gitkeep := some [] },
        "  Created .claude/priors/")

/-- The reference-document destination selected by the `--global` flag. -/
def skillDest (globalFlag : Bool) (fs : FS) : Option Str :=
  if globalFlag then fs.globalSkillFile else fs.skillFile

/-- Write the reference document to the selected destination. -/
def setSkill (globalFlag : Bool) (content : Str) (fs : FS) : FS :=
  if globalFlag then { fs with globalSkillFile := some content }
  else { fs with skillFile := some content }

/-- cli.js `init` step 2: ensure the skill directory exists, then copy
SKILL.md — written fresh when absent, overwritten only when the existing
content differs byte-for-byte from the bundled content. -/
def step2 (skill : Str) (globalFlag : Bool) (fs : FS) : FS × String :=
  let fs1 :=
    if globalFlag then
      if fs.globalSkillDir then fs else { fs with globalSkillDir := true }
    else
      if fs.skillDir then fs else { fs with skillDir := true }
  match skillDest globalFlag fs1 with
  | none => (setSkill globalFlag skill fs1, msgCreatedSkill globalFlag)
  | some existing =>
    if existing = skill then (fs1, "  SKILL.md already up to date")
    else (setSkill globalFlag skill fs1, "  Updated SKILL.md to v0.1.2")

/-- cli.js `init` step 3: pick `CLAUDE.md` if it exists, else `AGENTS.md`
if it exists, else default to `CLAUDE.md`; then append the bootstrap
fragment unless the marker is already present. -/
def step3 (bootstrap : Str) (fs : FS) : FS × String :=
  match fs.claudeMd with
  | some existing =>
    if hasSub PRIORS_MARKER existing then (fs, msgAlreadyHas "CLAUDE.md")
    else ({ fs with claudeMd := some (bootstrapInto bootstrap existing) },
          msgAppended "CLAUDE.md")
  | none =>
    match fs.agentsMd with
    | some existing =>
      if hasSub PRIORS_MARKER existing then (fs, msgAlreadyHas "AGENTS.md")
      else ({ fs with agentsMd := some (bootstrapInto bootstrap existing) },
            msgAppended "AGENTS.md")
    | none =>
      ({ fs with claudeMd := some (trim bootstrap ++ ofStr "\n") },
       msgCreatedInstr "CLAUDE.md")

/-- cli.js `init`, parameterized over the two bundled asset contents and
the `--global` flag; returns the final filesystem state and the three
per-step log lines. -/
def initNode (skill bootstrap : Str) (globalFlag : Bool) (fs : FS) : FS × List String :=
  let (f1, m1) := step1 fs
  let (f2, m2) := step2 skill globalFlag f1
  let (f3, m3) := step3 bootstrap f2
  (f3, [m1, m2, m3])

/-- The filesystem component of `initNode`. -/
def initFS (skill bootstrap : Str) (globalFlag : Bool) (fs : FS) : FS :=
  (initNode skill bootstrap globalFlag fs).1



/-- The reference document inlined in install.sh as the `SKILLEOF`
heredoc (byte-identical to the skill source file of the repository). -/
def SKILL_TEXT : Str := ofStr "---\nname: knowledge-extraction\ndescription: Detailed instructions for the agent priors system — how to extract, format, store, consume, and manage priors files in .claude/priors/. Load this skill when you need to write new priors, reorganize existing priors, or understand the priors file format. The always-on bootstrap lives in CLAUDE.md; this skill provides the full reference.\n---\n\n# Knowledge Extraction — Priors System Reference\n\nThis skill is the detailed reference for the priors system. The always-on bootstrap in `CLAUDE.md` tells the agent to scan and use priors every session. This skill is loaded on demand when the agent needs to **write, format, or manage** priors.\n\n## Skills vs Priors\n\n- **Skills** (`.claude/skills/`) — Explicit, user-provided and user-maintained. **Never write agent-learned knowledge into these files.**\n- **Priors** (`.claude/priors/`) — Implicit, agent-learned and agent-maintained. The agent\x27s working memory persisted to disk.\n\n## Agent Autonomy Over Priors\n\nPriors are fully agent-managed. The agent has **unconditional permission** to create, edit, rewrite, merge, split, delete, and reorganize priors files and directory structure. No user confirmation needed. Optimize purely for agent utility: fast scanning, low token cost, high signal density.\n\n## When to Extract\n\nAfter completing a task, extract if the conversation contained:\n\n1. **User correction** — User pointed out something wrong\n2. **Unexpected discovery** — Something behaved differently than assumed\n3. **Domain context the user provided** — System behavior, business logic, conventions not in code\n4. **Multi-step debugging** — Root cause of a back-and-forth diagnosis\n5. **Workaround or gotcha** — Non-obvious solution or edge case\n6. **User-volunteered context** — User proactively provided info (strong non-derivable signal)\n\nDo NOT extract when:\n- Task completed smoothly on first attempt\n- Knowledge already exists in skills or priors\n- Insight is too one-time-specific to reuse\n\n## Derivable vs Non-Derivable Context\n\n- **Derivable** — Discoverable from codebase (schemas, file structure). Don\x27t persist unless expensive to re-derive.\n- **Non-derivable** — Exists only in user\x27s head or external systems (timezone configs, business events, product behavior). Always persist.\n\nWhen a user volunteers information unprompted, it\x27s almost certainly non-derivable — they\x27re telling you because they know you can\x27t find it. Always capture it.\n\n## Priors File Format\n\n### Frontmatter (required)\n\nEvery priors file has YAML frontmatter for progressive disclosure — the agent scans frontmatter to decide relevance before loading the body.\n\n```yaml\n---\ntopic: <short topic name>\nsummary: <one-line description — used for relevance scanning without loading body>\nentries: <count>\nlast_updated: <YYYY-MM-DD>\n---\n```\n\n### Body\n\n```markdown\n# <Topic>\n\n## <Section>\n\n### <Fact title>\n<!-- Learned: YYYY-MM-DD -->\n<1-3 sentences: fact, consequence, correct approach. Max 5 lines.>\n```\n\n### Entry rules\n\n- State the **fact**, not the discovery story\n- Include **consequence** of getting it wrong\n- Include the **correct approach**\n- Max 5 lines per entry\n- Code snippets only when they save more words than they cost\n- Newest entries first within each section\n\n## Where to Store\n\nAll priors: `<repo>/.claude/priors/`. Organize by **topic domain**:\n\n```\n.claude/priors/\n├── data-analysis.md\n├── schema.md\n├── deployment.md\n└── product.md\n```\n\nDecision tree:\n1. `.claude/priors/` doesn\x27t exist? Create it.\n2. Relevant file exists? Append. If not, create with frontmatter.\n3. Relevant `##` section exists? Append under it. If not, create one.\n4. Update frontmatter (`entries`, `last_updated`) after every edit.\n\n## Execution (Writing Priors)\n\n1. Identify extractable lessons from conversation\n2. Draft compact entries\n3. Read target priors file (or create with frontmatter)\n4. Append under appropriate section\n5. Update frontmatter\n6. Briefly confirm to user what was captured\n\nDo this automatically at conversation end without being asked.\n\n## Execution (Reading Priors)\n\n1. List `.claude/priors/`\n2. Read frontmatter only (first lines up to closing `---`)\n3. Based on `topic` and `summary`, decide relevance to current task\n4. Load full body only for relevant files\n\n## Maintenance\n\nProactively maintain quality:\n- **Merge** overlapping files\n- **Split** files exceeding ~50 entries\n- **Rewrite** verbose or unclear entries\n- **Delete** outdated entries or entries now covered by explicit skills\n- **Update frontmatter** after every change\n"

/-- Modelled from the spec: the bundled assets `skill/SKILL.md` and
`bootstrap/CLAUDE.md.snippet` that cli.js reads are not among the
repository sources (only their install.sh copies are).  Spec §2 states
the shell variant carries "an inlined copy of the asset", so the
node-side bundled skill content is taken to be the shell heredoc text. -/
def NODE_SKILL : Str := SKILL_TEXT

/-- Modelled from the spec: the node-side bundled bootstrap snippet is
taken to be the inlined shell `BOOTSTRAP_TEXT` (spec §2, "an
inlined copy of the asset"). -/
def NODE_BOOTSTRAP : Str := BOOTSTRAP_TEXT

/-- install.sh step 2: `mkdir -p` the skill directory unconditionally,
then write SKILL.md only when absent (an existing copy is never
updated). -/
def shStep2 (fs : FS) : FS × String :=
  let fs1 := { fs with skillDir := true }
  match fs1.skillFile with
  | none => ({ fs1 with skillFile := some SKILL_TEXT },
             "  Created .claude/skills/knowledge-extraction/SKILL.md")
  | some _ => (fs1, "  SKILL.md already exists")

/-- install.sh step 3: same instruction-file selection as cli.js, guarded
by `grep -q "## Priors"`; appends `"\n" ++ BOOTSTRAP_TEXT ++ "\n"` to an
existing file, or creates the file as `BOOTSTRAP_TEXT ++ "\n"`. -/
def shStep3 (fs : FS) : FS × String :=
  match fs.claudeMd with
  | some existing =>
    if hasSub PRIORS_MARKER existing then (fs, msgAlreadyHas "CLAUDE.md")
    else ({ fs with claudeMd := some (existing ++ ofStr "\n" ++ BOOTSTRAP_TEXT ++ ofStr "\n") },
          msgAppended "CLAUDE.md")
  | none =>
    match fs.agentsMd with
    | some existing =>
      if hasSub PRIORS_MARKER existing then (fs, msgAlreadyHas "AGENTS.md")
      else ({ fs with agentsMd := some (existing ++ ofStr "\n" ++ BOOTSTRAP_TEXT ++ ofStr "\n") },
            msgAppended "AGENTS.md")
    | none =>
      ({ fs with claudeMd := some (BOOTSTRAP_TEXT ++ ofStr "\n") },
       msgCreatedInstr "CLAUDE.md")

/-- The `grep` pattern `.claude/priors/` from install.sh step 4: the
leading unescaped dot matches any character. -/
def GITIGNORE_PAT : Pat := none :: (ofStr "claude/priors/").map some

/-- The text install.sh appends to an existing .gitignore. -/
def GITIGNORE_ADD : Str := ofStr "\n# Agent priors (local knowledge)\n.claude/priors/\n"

/-- install.sh step 4: unless `--shared`, make sure .gitignore matches
the `.claude/priors/` pattern, appending to or creating the file. -/
def shStep4 (shared : Bool) (fs : FS) : FS × String :=
  if shared then (fs, "  --shared: priors will be git-tracked")
  else
    match fs.gitignore with
    | some g =>
      if hasSubP GITIGNORE_PAT g then (fs, "  .gitignore already excludes priors")
      else ({ fs with gitignore := some (g ++ GITIGNORE_ADD) },
            "  Added .claude/priors/ to .gitignore")
    | none =>
      ({ fs with gitignore := some (ofStr "# Agent priors (local knowledge)\n.claude/priors/\n") },
       "  Created .gitignore with priors exclusion")

/-- install.sh: the four steps in sequence.  Step 1 is byte-identical to
the cli.js step (same check, same writes, same messages), so `step1` is
shared. -/
def installSh (shared : Bool) (fs : FS) : FS × List String :=
  let (f1, m1) := step1 fs
  let (f2, m2) := shStep2 f1
  let (f3, m3) := shStep3 f2
  let (f4, m4) := shStep4 shared f3
  (f4, [m1, m2, m3, m4])

/-- The filesystem component of `installSh`. -/
def installShFS (shared : Bool) (fs : FS) : FS := (installSh shared fs).1

/-- Line terminators, the characters a JavaScript regex `.` does not
match. -/
def isLineTerm (c : Char) : Bool :=
  c = '\n' || c = '\r' || c.toNat = 0x2028 || c.toNat = 0x2029

/-- Characters captured by a greedy `(.+)` from the start of `s`. -/
def takeLine (s : Str) : Str := s.takeWhile (fun c => !(isLineTerm c))

/-- The characters strictly before the first occurrence of `"\n---"`,
or `none` when there is no such occurrence (the non-greedy group of the
frontmatter regex). -/
def findStop : Str → Option Str
  | [] => none
  | c :: rest =>
    if isPre (ofStr "\n---") (c :: rest) then some []
    else match findStop rest with
      | none => none
      | some g => some (c :: g)

/-- cli.js frontmatter match, regex `^---\n([\s\S]*?)\n---` anchored at
the start of the content: the block of a knowledge file, when the
content starts with `---` and a newline and `\n---` occurs later. -/
def fmExtract (content : Str) : Option Str :=
  if isPre (ofStr "---\n") content then findStop (content.drop 4) else none

/-- Attempt of `(.+)` at offset `k` of `t` (after `\s*` consumed `k`
characters): fails at end of input or at a line terminator. -/
def capAt (t : Str) (k : Nat) : Option Str :=
  match t.drop k with
  | [] => none
  | c :: rest => if isLineTerm c then none else some (c :: takeLine rest)

/-- Backtracking of the greedy `\s*` before `(.+)`: try the longest
whitespace run first, then shorter ones. -/
def backCap (t : Str) : Nat → Option Str
  | 0 => capAt t 0
  | k + 1 =>
    match capAt t (k + 1) with
    | some m => some m
    | none => backCap t k

/-- Match `\s*(.+)` at the start of `t`, returning the capture. -/
def matchCap (t : Str) : Option Str := backCap t (t.takeWhile isJsSpace).length

/-- JavaScript `fm.match(/<key>\s*(.+)/)`: scan for the first occurrence
of the literal `key` at which the tail `\s*(.+)` matches, and return the
capture. -/
def fieldMatch (key : Str) : Str → Option Str
  | [] => none
  | c :: rest =>
    if isPre key (c :: rest) then
      match matchCap ((c :: rest).drop key.length) with
      | some m => some m
      | none => fieldMatch key rest
    else fieldMatch key rest

/-- Match `\s*(\d+)` at the start of `t`.  Whitespace and digits are
disjoint, so the greedy `\s*` never backtracks here. -/
def digCap (t : Str) : Option Str :=
  match t.dropWhile isJsSpace with
  | [] => none
  | c :: rest => if c.isDigit then some (c :: rest.takeWhile Char.isDigit) else none

/-- JavaScript `fm.match(/entries:\s*(\d+)/)` (generic in the key). -/
def digMatch (key : Str) : Str → Option Str
  | [] => none
  | c :: rest =>
    if isPre key (c :: rest) then
      match digCap ((c :: rest).drop key.length) with
      | some m => some m
      | none => digMatch key rest
    else digMatch key rest

/-- The four per-file values cli.js `status` prints: topic, summary,
entry count, and the printed last-updated value (`lastUpdated` with
the fallback `unknown`). -/
structure FileReport where
  topic : Str
  summary : Str
  entries : Nat
  updated : Str
  deriving DecidableEq, Repr

/-- The per-file extraction of cli.js `status`: frontmatter block via
`fmExtract`, then the four independent field matches, with the filename
(first `.md` occurrence removed) as fallback topic, `0` as fallback
entry count, and `unknown` printed when the date is absent or empty. -/
def reportFile (name content : Str) : FileReport :=
  let topic0 := replaceFirst (ofStr ".md") [] name
  match fmExtract content with
  | none => { topic := topic0, summary := [], entries := 0, updated := ofStr "unknown" }
  | some fm =>
    let topic := match fieldMatch (ofStr "topic:") fm with
      | some m => trim m
      | none => topic0
    let summary := match fieldMatch (ofStr "summary:") fm with
      | some m => trim m
      | none => []
    let entries := match digMatch (ofStr "entries:") fm with
      | some d => natOfDigits d
      | none => 0
    let lastUpdated := match fieldMatch (ofStr "last_updated:") fm with
      | some m => trim m
      | none => []
    { topic := topic, summary := summary, entries := entries,
      updated := if lastUpdated = [] then ofStr "unknown" else lastUpdated }

/-- Outcome of one cli.js `status` invocation. -/
inductive StatusResult where
  | noDir
  | noFiles
  | report (files : List (Str × FileReport)) (fileCount totalEntries : Nat)
  deriving DecidableEq, Repr

/-- cli.js `status`, threading the filesystem state it reads: report
`noDir` when `.claude/priors/` is absent, `noFiles` when it holds no
`.md` file, else one `FileReport` per `.md` file in listing order plus
the file count and the sum of entry counts. -/
def statusRun (fs : FS) : FS × StatusResult :=
  if fs.priorsDir = false then (fs, .noDir)
  else
    let files := fs.priorsFiles.filter (fun p => endsWith (ofStr ".md") p.1)
    if files.length = 0 then (fs, .noFiles)
    else
      let reps := files.map (fun p => (p.1, reportFile p.1 p.2))
      (fs, .report reps files.length (reps.foldl (fun acc p => acc + p.2.entries) 0))

/-- cli.js `readAsset`: content of the first existing candidate, or an
error carrying the two candidate paths the diagnostic lists. -/
def readAsset (primary fallback : Option Str) (primaryPath fallbackPath : String) :
    Except (List String) Str :=
  match primary with
  | some content => .ok content
  | none =>
    match fallback with
    | some content => .ok content
    | none => .error [primaryPath, fallbackPath]

/-- The command words the cli.js dispatch switch recognizes. -/
def recognizedCmd (c : String) : Bool :=
  c = "init" || c = "status" || c = "help" || c = "--help" || c = "-h"

/-- Process exit status of a cli.js invocation: `cmd` is `argv[2]`
(`none` when absent); `sp`/`sf` and `bp`/`bf` give existence and content
of the primary and fallback candidate locations of the skill and
bootstrap assets.  `init` exits 1 as soon as either `readAsset` fails;
every other recognized command exits 0; an unrecognized command exits 1
after printing usage. -/
def cliExit (cmd : Option String) (sp sf bp bf : Option Str) : Nat :=
  match cmd with
  | none => 0
  | some c =>
    if c = "init" then
      match readAsset sp sf "" "" with
      | .error _ => 1
      | .ok _ =>
        match readAsset bp bf "" "" with
        | .error _ => 1
        | .ok _ => 0
    else if c = "status" then 0
    else if c = "help" then 0
    else if c = "--help" then 0
    else if c = "-h" then 0
    else 1

/-- The content of the instructions file the selection logic of both
installers settles on: `CLAUDE.md` when it exists, else `AGENTS.md`. -/
def instrSel (fs : FS) : Option Str :=
  match fs.claudeMd with
  | some e => some e
  | none => fs.agentsMd

/-- Hypothesis of the amended claim C2: the pre-existing reference
document, if any, is already the bundled one (install.sh never updates
an outdated copy, cli.js does). -/
def skillCompat (fs : FS) : Bool :=
  decide (fs.skillFile = none) || decide (fs.skillFile = some SKILL_TEXT)

/-- Hypothesis of the amended claim C2: the selected instructions file
exists and either already carries the marker or has no trailing
whitespace (cli.js trims the existing content before appending and trims
the fragment, install.sh does neither). -/
def instrCompat (fs : FS) : Bool :=
  match instrSel fs with
  | none => false
  | some e => hasSub PRIORS_MARKER e || decide (trimEnd e = e)

/-- The reading of the delimiters that claim C7 itself gives: a
metadata block requires
a line that is exactly `---` at file start and a later line that is
again exactly `---`.  (The regex of the code instead accepts any later line
that merely starts with three hyphens.) -/
def specHasBlock (content : Str) : Bool :=
  match splitNl content with
  | [] => false
  | first :: rest =>
    decide (first = ofStr "---") && rest.any (fun l => decide (l = ofStr "---"))



/-- Fixture: an instructions file whose body mentions `### Priors` (and
so contains the character sequence `## Priors`) without any standalone
marker heading line. -/
def C10DOC : Str := ofStr "# Doc\n\n### Priors notes\n\nplain body text"

/-- Fixture: a project with only that instructions file. -/
def C10FS : FS := { FS0 with claudeMd := some C10DOC }

/-- Fixture: the knowledge file of the C6 scenario. -/
def C6DATA : Str :=
  ofStr "---\ntopic: analytics\nsummary: test data\nentries: 3\nlast_updated: 2024-01-01\n---\n\n# Analytics\nbody\n"

/-- Fixture: two knowledge files with entry counts 3 and 5. -/
def C6FS : FS :=
  { FS0 with
      priorsDir := true
      priorsFiles :=
        [(ofStr "alpha.md", ofStr "---\ntopic: alpha\nentries: 3\n---\nbody\n"),
         (ofStr "beta.md", ofStr "---\ntopic: beta\nentries: 5\n---\nbody\n")] }

/-- Fixture: the C7 counterexample content — its second delimiter line
is `--- x`, not a line containing only three hyphens, so the delimiter
definition of the claim finds no metadata block, while the regex
stops at the `\n---` occurrence and extracts `topic: hacked`. -/
def C7CEX : Str := ofStr "---\ntopic: hacked\n--- x\nbody\n"

/-! Helper lemmas: occurrence of a pattern survives appending on either
side, for both the literal and the wildcard search. -/

theorem isPre_append (p s u : Str) (h : isPre p s = true) : isPre p (s ++ u) = true := by
  induction p generalizing s with
  | nil => rfl
  | cons a as ih =>
    cases s with
    | nil => simp [isPre] at h
    | cons b bs =>
      simp only [List.cons_append, isPre, Bool.and_eq_true] at h ⊢
      exact ⟨h.1, ih bs h.2⟩

theorem hasSub_append_right (p s u : Str) (h : hasSub p s = true) : hasSub p (s ++ u) = true := by
  induction s with
  | nil =>
    cases p with
    | nil => cases u <;> simp [hasSub, isPre]
    | cons a as => simp [hasSub, isPre] at h
  | cons c rest ih =>
    simp only [hasSub, Bool.or_eq_true] at h
    rcases h with h | h
    · simp only [List.cons_append, hasSub, Bool.or_eq_true]
      exact Or.inl (isPre_append _ _ _ h)
    · simp only [List.cons_append, hasSub, Bool.or_eq_true]
      exact Or.inr (ih h)

theorem hasSub_append_left (p t s : Str) (h : hasSub p s = true) : hasSub p (t ++ s) = true := by
  induction t with
  | nil => simpa using h
  | cons c cs ih =>
    simp only [List.cons_append, hasSub, Bool.or_eq_true]
    exact Or.inr ih

theorem isPreP_append (p : Pat) (s u : Str) (h : isPreP p s = true) : isPreP p (s ++ u) = true := by
  induction p generalizing s with
  | nil => rfl
  | cons a as ih =>
    cases s with
    | nil => simp [isPreP] at h
    | cons b bs =>
      simp only [List.cons_append, isPreP, Bool.and_eq_true] at h ⊢
      exact ⟨h.1, ih bs h.2⟩

theorem hasSubP_append_right (p : Pat) (s u : Str) (h : hasSubP p s = true) :
    hasSubP p (s ++ u) = true := by
  induction s with
  | nil =>
    cases p with
    | nil => cases u <;> simp [hasSubP, isPreP]
    | cons a as => simp [hasSubP, isPreP] at h
  | cons c rest ih =>
    simp only [hasSubP, Bool.or_eq_true] at h
    rcases h with h | h
    · simp only [List.cons_append, hasSubP, Bool.or_eq_true]
      exact Or.inl (isPreP_append _ _ _ h)
    · simp only [List.cons_append, hasSubP, Bool.or_eq_true]
      exact Or.inr (ih h)

theorem hasSubP_append_left (p : Pat) (t s : Str) (h : hasSubP p s = true) :
    hasSubP p (t ++ s) = true := by
  induction t with
  | nil => simpa using h
  | cons c cs ih =>
    simp only [List.cons_append, hasSubP, Bool.or_eq_true]
    exact Or.inr ih

/-- The trimmed shell fragment still carries the marker heading. -/
theorem marker_in_trimmed_bootstrap : hasSub PRIORS_MARKER (trim BOOTSTRAP_TEXT) = true := by
  decide

/-- The raw shell fragment carries the marker heading. -/
theorem marker_in_bootstrap : hasSub PRIORS_MARKER BOOTSTRAP_TEXT = true := by decide

/-- The shell fragment is exactly a newline followed by its trimmed
form (it starts with one blank line and has no trailing whitespace). -/
theorem bootstrap_shape : BOOTSTRAP_TEXT = ofStr "\n" ++ trim BOOTSTRAP_TEXT := by decide

/-- The text appended to an existing .gitignore matches the grep
pattern. -/
theorem gitignore_pat_in_add : hasSubP GITIGNORE_PAT GITIGNORE_ADD = true := by decide

/-- The freshly created .gitignore matches the grep pattern. -/
theorem gitignore_pat_in_new :
    hasSubP GITIGNORE_PAT (ofStr "# Agent priors (local knowledge)\n.claude/priors/\n") = true := by
  decide

/-- The appended instructions-file content of cli.js carries the marker
whenever the trimmed fragment does. -/
theorem marker_in_bootstrapInto (b e : Str) (h : hasSub PRIORS_MARKER (trim b) = true) :
    hasSub PRIORS_MARKER (bootstrapInto b e) = true := by
  unfold bootstrapInto
  have h1 : hasSub PRIORS_MARKER (trim b ++ ofStr "\n") = true :=
    hasSub_append_right _ _ _ h
  have h2 := hasSub_append_left PRIORS_MARKER (trimEnd e ++ ofStr "\n\n") _ h1
  simpa [List.append_assoc] using h2

/-! Step-level facts about the two installers. -/

theorem initFS_eq (s b : Str) (g : Bool) (fs : FS) :
    initFS s b g fs = (step3 b (step2 s g (step1 fs).1).1).1 := rfl

theorem installShFS_eq (sh : Bool) (fs : FS) :
    installShFS sh fs = (shStep4 sh (shStep3 (shStep2 (step1 fs).1).1).1).1 := rfl

theorem step1_priorsDir (fs : FS) : (step1 fs).1.priorsDir = true := by
  unfold step1; split <;> simp_all

theorem step1_noop (fs : FS) (h : fs.priorsDir = true) : (step1 fs).1 = fs := by
  unfold step1; simp [h]

theorem step1_keep (fs : FS) :
    (step1 fs).1.skillDir = fs.skillDir ∧ (step1 fs).1.skillFile = fs.skillFile ∧
    (step1 fs).1.globalSkillDir = fs.globalSkillDir ∧
    (step1 fs).1.globalSkillFile = fs.globalSkillFile ∧
    (step1 fs).1.claudeMd = fs.claudeMd ∧ (step1 fs).1.agentsMd = fs.agentsMd ∧
    (step1 fs).1.gitignore = fs.gitignore := by
  unfold step1; split <;> exact ⟨rfl, rfl, rfl, rfl, rfl, rfl, rfl⟩

theorem step2_keep (s : Str) (g : Bool) (fs : FS) :
    (step2 s g fs).1.priorsDir = fs.priorsDir ∧
    (step2 s g fs).1.priorsFiles = fs.priorsFiles ∧
    (step2 s g fs).1.gitkeep = fs.gitkeep ∧
    (step2 s g fs).1.claudeMd = fs.claudeMd ∧
    (step2 s g fs).1.agentsMd = fs.agentsMd ∧
    (step2 s g fs).1.gitignore = fs.gitignore := by
  unfold step2 skillDest setSkill
  cases g
  · cases h2 : fs.skillDir <;> cases h3 : fs.skillFile <;>
      simp [h2, h3] <;> split <;> simp
  · cases h1 : fs.globalSkillDir <;> cases h3 : fs.globalSkillFile <;>
      simp [h1, h3] <;> split <;> simp

theorem step2_dest (s : Str) (g : Bool) (fs : FS) :
    skillDest g (step2 s g fs).1 = some s ∧
    (if g then (step2 s g fs).1.globalSkillDir else (step2 s g fs).1.skillDir) = true := by
  unfold step2 skillDest setSkill
  cases g
  · cases h2 : fs.skillDir <;> cases h3 : fs.skillFile <;>
      simp [h2, h3] <;> split <;> simp_all
  · cases h1 : fs.globalSkillDir <;> cases h3 : fs.globalSkillFile <;>
      simp [h1, h3] <;> split <;> simp_all

theorem step2_noop (s : Str) (g : Bool) (fs : FS)
    (h1 : (if g then fs.globalSkillDir else fs.skillDir) = true)
    (h2 : skillDest g fs = some s) :
    (step2 s g fs).1 = fs := by
  unfold step2 skillDest setSkill
  unfold skillDest at h2
  cases g <;> simp_all

theorem step3_keep (b : Str) (fs : FS) :
    (step3 b fs).1.priorsDir = fs.priorsDir ∧
    (step3 b fs).1.priorsFiles = fs.priorsFiles ∧
    (step3 b fs).1.gitkeep = fs.gitkeep ∧
    (step3 b fs).1.skillDir = fs.skillDir ∧
    (step3 b fs).1.skillFile = fs.skillFile ∧
    (step3 b fs).1.globalSkillDir = fs.globalSkillDir ∧
    (step3 b fs).1.globalSkillFile = fs.globalSkillFile ∧
    (step3 b fs).1.gitignore = fs.gitignore := by
  unfold step3
  cases h1 : fs.claudeMd with
  | some e => simp [h1] <;> split <;> simp
  | none => cases h2 : fs.agentsMd <;> simp [h1, h2] <;> split <;> simp

theorem step3_noop (b : Str) (fs : FS) (e : Str)
    (hsel : instrSel fs = some e) (hm : hasSub PRIORS_MARKER e = true) :
    (step3 b fs).1 = fs := by
  unfold step3
  unfold instrSel at hsel
  cases h1 : fs.claudeMd with
  | some e1 =>
    rw [h1] at hsel
    cases hsel
    simp [h1, hm]
  | none =>
    rw [h1] at hsel
    cases h2 : fs.agentsMd with
    | some e2 =>
      rw [h2] at hsel
      cases hsel
      simp [h1, h2, hm]
    | none => rw [h2] at hsel; cases hsel

theorem step3_instr (b : Str) (fs : FS) (hM : hasSub PRIORS_MARKER (trim b) = true) :
    ∃ e, instrSel (step3 b fs).1 = some e ∧ hasSub PRIORS_MARKER e = true := by
  unfold step3 instrSel
  cases h1 : fs.claudeMd with
  | some e =>
    cases hm : hasSub PRIORS_MARKER e
    · exact ⟨bootstrapInto b e, by simp [h1, hm], marker_in_bootstrapInto b e hM⟩
    · exact ⟨e, by simp [h1, hm], hm⟩
  | none =>
    cases h2 : fs.agentsMd with
    | some e =>
      cases hm : hasSub PRIORS_MARKER e
      · exact ⟨bootstrapInto b e, by simp [h1, h2, hm], marker_in_bootstrapInto b e hM⟩
      · exact ⟨e, by simp [h1, h2, hm], hm⟩
    | none =>
      exact ⟨trim b ++ ofStr "\n", by simp [h1, h2], hasSub_append_right _ _ _ hM⟩

theorem initFS_priorsDir (s b : Str) (g : Bool) (fs : FS) :
    (initFS s b g fs).priorsDir = true := by
  rw [initFS_eq, (step3_keep b _).1, (step2_keep s g _).1]
  exact step1_priorsDir fs

theorem initFS_dest (s b : Str) (g : Bool) (fs : FS) :
    skillDest g (initFS s b g fs) = some s ∧
    (if g then (initFS s b g fs).globalSkillDir else (initFS s b g fs).skillDir) = true := by
  rw [initFS_eq]
  have k3 := step3_keep b (step2 s g (step1 fs).1).1
  have d2 := step2_dest s g (step1 fs).1
  unfold skillDest at *
  cases g <;> simp_all

theorem initFS_instr (s b : Str) (g : Bool) (fs : FS)
    (hM : hasSub PRIORS_MARKER (trim b) = true) :
    ∃ e, instrSel (initFS s b g fs) = some e ∧ hasSub PRIORS_MARKER e = true := by
  rw [initFS_eq]
  exact step3_instr b _ hM

theorem initFS_idem (s b : Str) (g : Bool) (fs : FS)
    (hM : hasSub PRIORS_MARKER (trim b) = true) :
    initFS s b g (initFS s b g fs) = initFS s b g fs := by
  obtain ⟨e, hsel, hm⟩ := initFS_instr s b g fs hM
  have h1 := initFS_priorsDir s b g fs
  obtain ⟨h2, h3⟩ := initFS_dest s b g fs
  conv_lhs => rw [initFS_eq]
  rw [step1_noop _ h1, step2_noop s g _ h3 h2, step3_noop b _ e hsel hm]

/-! The same development for the shell installer. -/

theorem shStep2_keep (fs : FS) :
    (shStep2 fs).1.priorsDir = fs.priorsDir ∧
    (shStep2 fs).1.priorsFiles = fs.priorsFiles ∧
    (shStep2 fs).1.gitkeep = fs.gitkeep ∧
    (shStep2 fs).1.claudeMd = fs.claudeMd ∧
    (shStep2 fs).1.agentsMd = fs.agentsMd ∧
    (shStep2 fs).1.gitignore = fs.gitignore := by
  unfold shStep2
  cases h : fs.skillFile <;> simp [h]

theorem shStep2_skill (fs : FS) :
    (shStep2 fs).1.skillDir = true ∧ ∃ x, (shStep2 fs).1.skillFile = some x := by
  unfold shStep2
  cases h : fs.skillFile <;> simp [h]

theorem shStep2_noop (fs : FS) (x : Str) (h1 : fs.skillDir = true) (h2 : fs.skillFile = some x) :
    (shStep2 fs).1 = fs := by
  unfold shStep2
  cases fs
  simp_all

theorem shStep3_keep (fs : FS) :
    (shStep3 fs).1.priorsDir = fs.priorsDir ∧
    (shStep3 fs).1.priorsFiles = fs.priorsFiles ∧
    (shStep3 fs).1.gitkeep = fs.gitkeep ∧
    (shStep3 fs).1.skillDir = fs.skillDir ∧
    (shStep3 fs).1.skillFile = fs.skillFile ∧
    (shStep3 fs).1.gitignore = fs.gitignore := by
  unfold shStep3
  cases h1 : fs.claudeMd with
  | some e => simp [h1] <;> split <;> simp
  | none => cases h2 : fs.agentsMd <;> simp [h1, h2] <;> split <;> simp

theorem shStep3_noop (fs : FS) (e : Str)
    (hsel : instrSel fs = some e) (hm : hasSub PRIORS_MARKER e = true) :
    (shStep3 fs).1 = fs := by
  unfold shStep3
  unfold instrSel at hsel
  cases h1 : fs.claudeMd with
  | some e1 =>
    rw [h1] at hsel
    cases hsel
    simp [h1, hm]
  | none =>
    rw [h1] at hsel
    cases h2 : fs.agentsMd with
    | some e2 =>
      rw [h2] at hsel
      cases hsel
      simp [h1, h2, hm]
    | none => rw [h2] at hsel; cases hsel

theorem shStep3_instr (fs : FS) :
    ∃ e, instrSel (shStep3 fs).1 = some e ∧ hasSub PRIORS_MARKER e = true := by
  unfold shStep3 instrSel
  cases h1 : fs.claudeMd with
  | some e =>
    cases hm : hasSub PRIORS_MARKER e
    · refine ⟨e ++ ofStr "\n" ++ BOOTSTRAP_TEXT ++ ofStr "\n", by simp [h1, hm], ?_⟩
      have hb := hasSub_append_right _ _ (ofStr "\n") marker_in_bootstrap
      have := hasSub_append_left PRIORS_MARKER (e ++ ofStr "\n") _ hb
      simpa [List.append_assoc] using this
    · exact ⟨e, by simp [h1, hm], hm⟩
  | none =>
    cases h2 : fs.agentsMd with
    | some e =>
      cases hm : hasSub PRIORS_MARKER e
      · refine ⟨e ++ ofStr "\n" ++ BOOTSTRAP_TEXT ++ ofStr "\n", by simp [h1, h2, hm], ?_⟩
        have hb := hasSub_append_right _ _ (ofStr "\n") marker_in_bootstrap
        have := hasSub_append_left PRIORS_MARKER (e ++ ofStr "\n") _ hb
        simpa [List.append_assoc] using this
      · exact ⟨e, by simp [h1, h2, hm], hm⟩
    | none =>
      exact ⟨BOOTSTRAP_TEXT ++ ofStr "\n", by simp [h1, h2],
        hasSub_append_right _ _ _ marker_in_bootstrap⟩

theorem shStep4_keep (sh : Bool) (fs : FS) :
    (shStep4 sh fs).1.priorsDir = fs.priorsDir ∧
    (shStep4 sh fs).1.priorsFiles = fs.priorsFiles ∧
    (shStep4 sh fs).1.gitkeep = fs.gitkeep ∧
    (shStep4 sh fs).1.skillDir = fs.skillDir ∧
    (shStep4 sh fs).1.skillFile = fs.skillFile ∧
    (shStep4 sh fs).1.claudeMd = fs.claudeMd ∧
    (shStep4 sh fs).1.agentsMd = fs.agentsMd := by
  unfold shStep4
  cases sh
  · cases h : fs.gitignore <;> simp [h] <;> split <;> simp
  · simp

theorem shStep4_noop_shared (fs : FS) : (shStep4 true fs).1 = fs := rfl

theorem shStep4_noop (fs : FS) (g' : Str)
    (h1 : fs.gitignore = some g') (h2 : hasSubP GITIGNORE_PAT g' = true) :
    (shStep4 false fs).1 = fs := by
  unfold shStep4
  simp [h1, h2]

theorem shStep4_git (fs : FS) :
    ∃ g', (shStep4 false fs).1.gitignore = some g' ∧ hasSubP GITIGNORE_PAT g' = true := by
  unfold shStep4
  cases h1 : fs.gitignore with
  | some g =>
    cases hp : hasSubP GITIGNORE_PAT g
    · exact ⟨g ++ GITIGNORE_ADD, by simp [h1, hp],
        hasSubP_append_left _ g _ gitignore_pat_in_add⟩
    · exact ⟨g, by simp [h1, hp], hp⟩
  | none =>
    exact ⟨ofStr "# Agent priors (local knowledge)\n.claude/priors/\n",
      by simp [h1], gitignore_pat_in_new⟩

theorem installShFS_priorsDir (sh : Bool) (fs : FS) :
    (installShFS sh fs).priorsDir = true := by
  rw [installShFS_eq, (shStep4_keep sh _).1, (shStep3_keep _).1, (shStep2_keep _).1]
  exact step1_priorsDir fs

theorem installShFS_skill (sh : Bool) (fs : FS) :
    (installShFS sh fs).skillDir = true ∧ ∃ x, (installShFS sh fs).skillFile = some x := by
  rw [installShFS_eq]
  obtain ⟨hd, x, hx⟩ := shStep2_skill (step1 fs).1
  refine ⟨?_, x, ?_⟩
  · rw [(shStep4_keep sh _).2.2.2.1, (shStep3_keep _).2.2.2.1]; exact hd
  · rw [(shStep4_keep sh _).2.2.2.2.1, (shStep3_keep _).2.2.2.2.1]; exact hx

theorem installShFS_instr (sh : Bool) (fs : FS) :
    ∃ e, instrSel (installShFS sh fs) = some e ∧ hasSub PRIORS_MARKER e = true := by
  rw [installShFS_eq]
  obtain ⟨e, hsel, hm⟩ := shStep3_instr (shStep2 (step1 fs).1).1
  refine ⟨e, ?_, hm⟩
  have kc := (shStep4_keep sh (shStep3 (shStep2 (step1 fs).1).1).1).2.2.2.2.2.1
  have ka := (shStep4_keep sh (shStep3 (shStep2 (step1 fs).1).1).1).2.2.2.2.2.2
  unfold instrSel at hsel ⊢
  rw [kc, ka]
  exact hsel

theorem installShFS_idem (sh : Bool) (fs : FS) :
    installShFS sh (installShFS sh fs) = installShFS sh fs := by
  have h1 := installShFS_priorsDir sh fs
  obtain ⟨hd, x, hx⟩ := installShFS_skill sh fs
  obtain ⟨e, hsel, hm⟩ := installShFS_instr sh fs
  conv_lhs => rw [installShFS_eq]
  rw [step1_noop _ h1, shStep2_noop _ x hd hx, shStep3_noop _ e hsel hm]
  cases sh
  · obtain ⟨g', hg, hp⟩ := shStep4_git (installShFS false fs)
    obtain ⟨g0, hg0, hp0⟩ :
        ∃ g0, (installShFS false fs).gitignore = some g0 ∧ hasSubP GITIGNORE_PAT g0 = true := by
      rw [installShFS_eq]
      exact shStep4_git _
    exact shStep4_noop _ g0 hg0 hp0
  · exact shStep4_noop_shared _

/-! The ten claims. -/

/-- Claim C1: for every starting filesystem state, running the init
operation twice in a row on the same directory (with the same flags)
produces a final filesystem state identical, byte-for-byte for every
produced file, to the state after running it once.  The cli.js part is
proved for any bundled assets whose trimmed bootstrap fragment contains
the marker heading (true of the real fragment, see the witness); the
install.sh part is unconditional. -/
theorem claim_C1_init_idempotent :
    (∀ (skill bootstrap : Str) (g : Bool) (fs : FS),
        hasSub PRIORS_MARKER (trim bootstrap) = true →
        initFS skill bootstrap g (initFS skill bootstrap g fs) = initFS skill bootstrap g fs)
    ∧ (∀ (shared : Bool) (fs : FS),
        installShFS shared (installShFS shared fs) = installShFS shared fs) :=
  ⟨fun s b g fs hM => initFS_idem s b g fs hM,
   fun sh fs => installShFS_idem sh fs⟩

/-- Witness for C1 at the real assets and the empty directory: the
trimmed bundled fragment does contain the marker, and double cli.js init
equals single init there. -/
theorem claim_C1_witness :
    hasSub PRIORS_MARKER (trim NODE_BOOTSTRAP) = true ∧
    initFS NODE_SKILL NODE_BOOTSTRAP false (initFS NODE_SKILL NODE_BOOTSTRAP false FS0)
      = initFS NODE_SKILL NODE_BOOTSTRAP false FS0 :=
  ⟨by decide, claim_C1_init_idempotent.1 NODE_SKILL NODE_BOOTSTRAP false FS0 (by decide)⟩

/-- The two append forms coincide exactly when the existing content has
no trailing whitespace, because the shell fragment is a newline plus its
own trimmed form. -/
theorem append_agree (e : Str) (ht : trimEnd e = e) :
    bootstrapInto BOOTSTRAP_TEXT e = e ++ ofStr "\n" ++ BOOTSTRAP_TEXT ++ ofStr "\n" := by
  unfold bootstrapInto
  rw [ht]
  conv_rhs => rw [bootstrap_shape]
  have hnn : ofStr "\n\n" = ofStr "\n" ++ ofStr "\n" := by decide
  rw [hnn]
  simp [List.append_assoc]

/-- Core of the amended claim C2: from any state satisfying the two
compatibility conditions, cli.js steps 2-3 and install.sh steps 2-4
agree on every compared path (step 1 is shared verbatim). -/
theorem nodeShellCore (h : FS) (hS : skillCompat h = true) (hI : instrCompat h = true) :
    (step3 NODE_BOOTSTRAP (step2 NODE_SKILL false h).1).1.priorsDir
        = (shStep4 false (shStep3 (shStep2 h).1).1).1.priorsDir
    ∧ (step3 NODE_BOOTSTRAP (step2 NODE_SKILL false h).1).1.priorsFiles
        = (shStep4 false (shStep3 (shStep2 h).1).1).1.priorsFiles
    ∧ (step3 NODE_BOOTSTRAP (step2 NODE_SKILL false h).1).1.gitkeep
        = (shStep4 false (shStep3 (shStep2 h).1).1).1.gitkeep
    ∧ (step3 NODE_BOOTSTRAP (step2 NODE_SKILL false h).1).1.skillFile
        = (shStep4 false (shStep3 (shStep2 h).1).1).1.skillFile
    ∧ (step3 NODE_BOOTSTRAP (step2 NODE_SKILL false h).1).1.claudeMd
        = (shStep4 false (shStep3 (shStep2 h).1).1).1.claudeMd
    ∧ (step3 NODE_BOOTSTRAP (step2 NODE_SKILL false h).1).1.agentsMd
        = (shStep4 false (shStep3 (shStep2 h).1).1).1.agentsMd := by
  unfold NODE_BOOTSTRAP NODE_SKILL
  obtain ⟨pd, pf, gk, sd, sf, gd, gf, cm, am, gi⟩ := h
  unfold skillCompat at hS
  unfold instrCompat instrSel at hI
  simp only [decide_eq_true_eq, Bool.or_eq_true] at hS
  unfold step2 step3 shStep2 shStep3 shStep4 skillDest setSkill
  dsimp only at *
  cases hsf : sf with
  | none =>
    subst hsf
    cases hcm : cm with
    | some e =>
      subst hcm
      dsimp only at hI
      cases hm : hasSub PRIORS_MARKER e with
      | true =>
        cases sd <;> cases hgi : gi <;>
          simp [hm, hgi] <;> split <;> simp
      | false =>
        rw [hm] at hI
        simp only [Bool.false_or, decide_eq_true_eq] at hI
        cases sd <;> cases hgi : gi <;>
          simp [hm, hgi, append_agree e hI] <;> split <;> simp
    | none =>
      subst hcm
      cases ham : am with
      | some e =>
        subst ham
        dsimp only at hI
        cases hm : hasSub PRIORS_MARKER e with
        | true =>
          cases sd <;> cases hgi : gi <;>
            simp [hm, hgi] <;> split <;> simp
        | false =>
          rw [hm] at hI
          simp only [Bool.false_or, decide_eq_true_eq] at hI
          cases sd <;> cases hgi : gi <;>
            simp [hm, hgi, append_agree e hI] <;> split <;> simp
      | none => subst ham; dsimp only at hI; cases hI
  | some x =>
    subst hsf
    rcases hS with hS | hS
    · cases hS
    · have hx : x = SKILL_TEXT := by injection hS
      subst hx
      cases hcm : cm with
      | some e =>
        subst hcm
        dsimp only at hI
        cases hm : hasSub PRIORS_MARKER e with
        | true =>
          cases sd <;> cases hgi : gi <;>
            simp [hm, hgi] <;> split <;> simp
        | false =>
          rw [hm] at hI
          simp only [Bool.false_or, decide_eq_true_eq] at hI
          cases sd <;> cases hgi : gi <;>
            simp [hm, hgi, append_agree e hI] <;> split <;> simp
      | none =>
        subst hcm
        cases ham : am with
        | some e =>
          subst ham
          dsimp only at hI
          cases hm : hasSub PRIORS_MARKER e with
          | true =>
            cases sd <;> cases hgi : gi <;>
              simp [hm, hgi] <;> split <;> simp
          | false =>
            rw [hm] at hI
            simp only [Bool.false_or, decide_eq_true_eq] at hI
            cases sd <;> cases hgi : gi <;>
              simp [hm, hgi, append_agree e hI] <;> split <;> simp
        | none => subst ham; dsimp only at hI; cases hI

/-- Claim C2 counterexample: already on the empty project directory the
two installers write different instructions-file bytes — cli.js creates
`trim fragment ++ newline` while install.sh creates the untrimmed
`fragment ++ newline`, which starts with a blank line. -/
theorem claim_C2_counterexample :
    ¬ ((initNode NODE_SKILL NODE_BOOTSTRAP false FS0).1.claudeMd
        = (installSh false FS0).1.claudeMd) := by decide

/-- Claim C2, amended: the cli.js `init` (no flags) and the shell script
(no flags) produce the same resulting contents for the knowledge
directory, the reference document and the instructions file, provided the
pre-existing reference document is absent or already the bundled one
(install.sh never updates an outdated copy) and the selected instructions
file exists and either carries the marker or has no trailing whitespace
(install.sh appends the untrimmed fragment without trimming the existing
content, and creates a fresh file with a leading blank line cli.js
avoids). -/
theorem claim_C2_amended (fs : FS) (hS : skillCompat fs = true) (hI : instrCompat fs = true) :
    (initFS NODE_SKILL NODE_BOOTSTRAP false fs).priorsDir = (installShFS false fs).priorsDir
    ∧ (initFS NODE_SKILL NODE_BOOTSTRAP false fs).priorsFiles = (installShFS false fs).priorsFiles
    ∧ (initFS NODE_SKILL NODE_BOOTSTRAP false fs).gitkeep = (installShFS false fs).gitkeep
    ∧ (initFS NODE_SKILL NODE_BOOTSTRAP false fs).skillFile = (installShFS false fs).skillFile
    ∧ (initFS NODE_SKILL NODE_BOOTSTRAP false fs).claudeMd = (installShFS false fs).claudeMd
    ∧ (initFS NODE_SKILL NODE_BOOTSTRAP false fs).agentsMd = (installShFS false fs).agentsMd := by
  rw [initFS_eq, installShFS_eq]
  have h1 := step1_keep fs
  have hSf : skillCompat (step1 fs).1 = true := by
    unfold skillCompat at hS ⊢
    rw [h1.2.1]
    exact hS
  have hIf : instrCompat (step1 fs).1 = true := by
    unfold instrCompat instrSel at hI ⊢
    rw [h1.2.2.2.2.1, h1.2.2.2.2.2.1]
    exact hI
  exact nodeShellCore (step1 fs).1 hSf hIf

/-- Witness for the amended C2 at a state with an existing trailing-
whitespace-free CLAUDE.md and no reference document. -/
theorem claim_C2_witness :
    skillCompat { FS0 with claudeMd := some (ofStr "# Project docs") } = true
    ∧ instrCompat { FS0 with claudeMd := some (ofStr "# Project docs") } = true
    ∧ (initFS NODE_SKILL NODE_BOOTSTRAP false
          { FS0 with claudeMd := some (ofStr "# Project docs") }).claudeMd
        = (installShFS false { FS0 with claudeMd := some (ofStr "# Project docs") }).claudeMd :=
  ⟨by decide, by decide,
   (claim_C2_amended { FS0 with claudeMd := some (ofStr "# Project docs") }
      (by decide) (by decide)).2.2.2.2.1⟩

/-! Log-line facts used by the claims about reported messages. -/

theorem initNode_log (s b : Str) (g : Bool) (fs : FS) :
    (initNode s b g fs).2
      = [(step1 fs).2, (step2 s g (step1 fs).1).2,
         (step3 b (step2 s g (step1 fs).1).1).2] := rfl

theorem step1_msg (fs : FS) :
    (step1 fs).2 = "  .claude/priors/ already exists"
      ∨ (step1 fs).2 = "  Created .claude/priors/" := by
  unfold step1
  split
  · exact Or.inl rfl
  · exact Or.inr rfl

theorem step2_msg (s : Str) (g : Bool) (fs : FS) (e : Str) (h : skillDest g fs = some e) :
    (step2 s g fs).2
      = (if e = s then "  SKILL.md already up to date" else "  Updated SKILL.md to v0.1.2") := by
  unfold step2 skillDest setSkill
  unfold skillDest at h
  cases g
  · cases h2 : fs.skillDir <;> simp_all <;> split <;> simp_all
  · cases h1 : fs.globalSkillDir <;> simp_all <;> split <;> simp_all

theorem step2_msg_any (s : Str) (g : Bool) (fs : FS) :
    (step2 s g fs).2 = msgCreatedSkill g
      ∨ (step2 s g fs).2 = "  SKILL.md already up to date"
      ∨ (step2 s g fs).2 = "  Updated SKILL.md to v0.1.2" := by
  unfold step2 skillDest setSkill
  cases g
  · cases h2 : fs.skillDir <;> cases h3 : fs.skillFile <;> simp [h2, h3] <;> split <;> simp
  · cases h1 : fs.globalSkillDir <;> cases h3 : fs.globalSkillFile <;> simp [h1, h3] <;> split <;> simp

theorem step3_msg (b : Str) (fs : FS) :
    (step3 b fs).2 = msgAlreadyHas "CLAUDE.md" ∨ (step3 b fs).2 = msgAppended "CLAUDE.md"
      ∨ (step3 b fs).2 = msgAlreadyHas "AGENTS.md" ∨ (step3 b fs).2 = msgAppended "AGENTS.md"
      ∨ (step3 b fs).2 = msgCreatedInstr "CLAUDE.md" := by
  unfold step3
  cases h1 : fs.claudeMd with
  | none =>
    cases h2 : fs.agentsMd with
    | none => simp [h1, h2]
    | some e => cases hm : hasSub PRIORS_MARKER e <;> simp [h1, h2, hm]
  | some e => cases hm : hasSub PRIORS_MARKER e <;> simp [h1, hm]

theorem step3_msg_marker (b : Str) (fs : FS) (e : Str)
    (hsel : instrSel fs = some e) (hm : hasSub PRIORS_MARKER e = true) :
    (step3 b fs).2 = msgAlreadyHas "CLAUDE.md" ∨ (step3 b fs).2 = msgAlreadyHas "AGENTS.md" := by
  unfold step3
  unfold instrSel at hsel
  cases h1 : fs.claudeMd with
  | some e1 =>
    rw [h1] at hsel
    cases hsel
    simp [hm]
  | none =>
    rw [h1] at hsel
    cases h2 : fs.agentsMd with
    | some e2 =>
      rw [h2] at hsel
      cases hsel
      simp [hm]
    | none => rw [h2] at hsel; cases hsel

/-- Claim C3: for every pre-existing reference-document destination file,
cli.js init overwrites it with the bundled content when it differs, and
performs no write when it is byte-for-byte identical — reporting
`already up to date` and never `Updated`. -/
theorem claim_C3_skill_update (skill bootstrap e : Str) (g : Bool) (fs : FS)
    (h : skillDest g fs = some e) :
    (e ≠ skill →
        skillDest g (initFS skill bootstrap g fs) = some skill
        ∧ "  Updated SKILL.md to v0.1.2" ∈ (initNode skill bootstrap g fs).2)
    ∧ (e = skill →
        skillDest g (initFS skill bootstrap g fs) = some e
        ∧ "  SKILL.md already up to date" ∈ (initNode skill bootstrap g fs).2
        ∧ "  Updated SKILL.md to v0.1.2" ∉ (initNode skill bootstrap g fs).2) := by
  have hd1 : skillDest g (step1 fs).1 = some e := by
    unfold skillDest at h ⊢
    cases g
    · rw [(step1_keep fs).2.1]; exact h
    · rw [(step1_keep fs).2.2.2.1]; exact h
  have hlog := initNode_log skill bootstrap g fs
  constructor
  · intro hne
    refine ⟨(initFS_dest skill bootstrap g fs).1, ?_⟩
    rw [hlog, step2_msg skill g _ e hd1, if_neg hne]
    simp
  · intro heq
    refine ⟨by rw [(initFS_dest skill bootstrap g fs).1, heq], ?_, ?_⟩
    · rw [hlog, step2_msg skill g _ e hd1, if_pos heq]
      simp
    · rw [hlog]
      intro hmem
      simp only [List.mem_cons, List.not_mem_nil, or_false] at hmem
      rcases hmem with h1 | h2 | h3
      · rcases step1_msg fs with hm | hm <;> rw [hm] at h1 <;> exact absurd h1 (by decide)
      · rw [step2_msg skill g _ e hd1, if_pos heq] at h2
        exact absurd h2 (by decide)
      · rcases step3_msg bootstrap _ with hm | hm | hm | hm | hm <;> rw [hm] at h3 <;>
          exact absurd h3 (by decide)

/-- Witness for C3 at a project whose reference document holds outdated
bytes: init overwrites and reports the update. -/
theorem claim_C3_witness :
    skillDest false { FS0 with skillFile := some (ofStr "old") } = some (ofStr "old")
    ∧ ofStr "old" ≠ ofStr "new"
    ∧ (skillDest false (initFS (ofStr "new") (ofStr "## Priors\nb") false
          { FS0 with skillFile := some (ofStr "old") }) = some (ofStr "new")
        ∧ "  Updated SKILL.md to v0.1.2"
            ∈ (initNode (ofStr "new") (ofStr "## Priors\nb") false
                { FS0 with skillFile := some (ofStr "old") }).2) :=
  ⟨rfl, by decide,
   (claim_C3_skill_update (ofStr "new") (ofStr "## Priors\nb") (ofStr "old") false
      { FS0 with skillFile := some (ofStr "old") } rfl).1 (by decide)⟩

/-- Claim C4: for every pre-existing selected instructions file without
the marker, the post-init content is the trailing-whitespace-trimmed
original, one blank line, the trimmed bootstrap fragment, and a final
newline. -/
theorem claim_C4_append (skill bootstrap e : Str) (g : Bool) (fs : FS)
    (hm : hasSub PRIORS_MARKER e = false) :
    (fs.claudeMd = some e →
        (initFS skill bootstrap g fs).claudeMd
          = some (trimEnd e ++ ofStr "\n\n" ++ trim bootstrap ++ ofStr "\n"))
    ∧ (fs.claudeMd = none → fs.agentsMd = some e →
        (initFS skill bootstrap g fs).agentsMd
          = some (trimEnd e ++ ofStr "\n\n" ++ trim bootstrap ++ ofStr "\n")) := by
  have hc : (step2 skill g (step1 fs).1).1.claudeMd = fs.claudeMd := by
    rw [(step2_keep skill g (step1 fs).1).2.2.2.1, (step1_keep fs).2.2.2.2.1]
  have ha : (step2 skill g (step1 fs).1).1.agentsMd = fs.agentsMd := by
    rw [(step2_keep skill g (step1 fs).1).2.2.2.2.1, (step1_keep fs).2.2.2.2.2.1]
  constructor
  · intro h1
    rw [initFS_eq]
    unfold step3
    rw [hc, h1]
    simp [hm, bootstrapInto]
  · intro h1 h2
    rw [initFS_eq]
    unfold step3
    rw [hc, h1, ha, h2]
    simp [hm, bootstrapInto]

/-- Witness for C4 at a CLAUDE.md with trailing blanks and no marker. -/
theorem claim_C4_witness :
    hasSub PRIORS_MARKER (ofStr "# Docs\n\nSome text  \n\n") = false
    ∧ (initFS (ofStr "S") (ofStr "\n## Priors\nuse priors\n") false
          { FS0 with claudeMd := some (ofStr "# Docs\n\nSome text  \n\n") }).claudeMd
        = some (trimEnd (ofStr "# Docs\n\nSome text  \n\n") ++ ofStr "\n\n"
            ++ trim (ofStr "\n## Priors\nuse priors\n") ++ ofStr "\n") :=
  ⟨by decide,
   (claim_C4_append (ofStr "S") (ofStr "\n## Priors\nuse priors\n")
      (ofStr "# Docs\n\nSome text  \n\n") false
      { FS0 with claudeMd := some (ofStr "# Docs\n\nSome text  \n\n") } (by decide)).1 rfl⟩

/-- Claim C5: for every pre-existing selected instructions file whose
content contains the marker heading, init leaves its bytes unchanged. -/
theorem claim_C5_marker_noop (skill bootstrap e : Str) (g : Bool) (fs : FS)
    (hm : hasSub PRIORS_MARKER e = true) :
    (fs.claudeMd = some e → (initFS skill bootstrap g fs).claudeMd = some e)
    ∧ (fs.claudeMd = none → fs.agentsMd = some e →
        (initFS skill bootstrap g fs).agentsMd = some e) := by
  have hc : (step2 skill g (step1 fs).1).1.claudeMd = fs.claudeMd := by
    rw [(step2_keep skill g (step1 fs).1).2.2.2.1, (step1_keep fs).2.2.2.2.1]
  have ha : (step2 skill g (step1 fs).1).1.agentsMd = fs.agentsMd := by
    rw [(step2_keep skill g (step1 fs).1).2.2.2.2.1, (step1_keep fs).2.2.2.2.2.1]
  constructor
  · intro h1
    rw [initFS_eq]
    unfold step3
    rw [hc, h1]
    simp [hm, hc, h1]
  · intro h1 h2
    rw [initFS_eq]
    unfold step3
    rw [hc, h1, ha, h2]
    simp [hm, hc, h1, ha, h2]

/-- Witness for C5 at a CLAUDE.md that already carries the standalone
marker heading. -/
theorem claim_C5_witness :
    hasSub PRIORS_MARKER (ofStr "# T\n\n## Priors\n\nkeep me\n") = true
    ∧ (initFS (ofStr "S") (ofStr "\n## Priors\nb\n") false
          { FS0 with claudeMd := some (ofStr "# T\n\n## Priors\n\nkeep me\n") }).claudeMd
        = some (ofStr "# T\n\n## Priors\n\nkeep me\n") :=
  ⟨by decide,
   (claim_C5_marker_noop (ofStr "S") (ofStr "\n## Priors\nb\n")
      (ofStr "# T\n\n## Priors\n\nkeep me\n") false
      { FS0 with claudeMd := some (ofStr "# T\n\n## Priors\n\nkeep me\n") } (by decide)).1 rfl⟩

/-- Claim C10 (implicit): marker detection is plain substring
containment — whenever the selected instructions file contains the
character sequence `## Priors` anywhere (for instance inside a longer
heading such as `### Priors`, as the witness shows), init treats the
bootstrap as already present: the file keeps its bytes, an
`already has priors bootstrap` line is reported, and no `Appended` line
is. -/
theorem claim_C10_marker_is_substring (skill bootstrap e : Str) (g : Bool) (fs : FS)
    (hsel : instrSel fs = some e) (hm : hasSub PRIORS_MARKER e = true) :
    instrSel (initFS skill bootstrap g fs) = some e
    ∧ (msgAlreadyHas "CLAUDE.md" ∈ (initNode skill bootstrap g fs).2
        ∨ msgAlreadyHas "AGENTS.md" ∈ (initNode skill bootstrap g fs).2)
    ∧ msgAppended "CLAUDE.md" ∉ (initNode skill bootstrap g fs).2
    ∧ msgAppended "AGENTS.md" ∉ (initNode skill bootstrap g fs).2 := by
  have hselX : instrSel (step2 skill g (step1 fs).1).1 = some e := by
    unfold instrSel at hsel ⊢
    rw [(step2_keep skill g (step1 fs).1).2.2.2.1, (step1_keep fs).2.2.2.2.1,
        (step2_keep skill g (step1 fs).1).2.2.2.2.1, (step1_keep fs).2.2.2.2.2.1]
    exact hsel
  have hnoop := step3_noop bootstrap (step2 skill g (step1 fs).1).1 e hselX hm
  have hlog := initNode_log skill bootstrap g fs
  refine ⟨?_, ?_, ?_, ?_⟩
  · rw [initFS_eq, hnoop]
    exact hselX
  · rcases step3_msg_marker bootstrap _ e hselX hm with hm3 | hm3
    · left; rw [hlog, hm3]; simp
    · right; rw [hlog, hm3]; simp
  · rw [hlog]
    intro hmem
    simp only [List.mem_cons, List.not_mem_nil, or_false] at hmem
    rcases hmem with h1 | h2 | h3
    · rcases step1_msg fs with hx | hx <;> rw [hx] at h1 <;> exact absurd h1 (by decide)
    · rcases step2_msg_any skill g (step1 fs).1 with hx | hx | hx <;> rw [hx] at h2
      · cases g <;> exact absurd h2 (by decide)
      · exact absurd h2 (by decide)
      · exact absurd h2 (by decide)
    · rcases step3_msg_marker bootstrap _ e hselX hm with hx | hx <;> rw [hx] at h3 <;>
        exact absurd h3 (by decide)
  · rw [hlog]
    intro hmem
    simp only [List.mem_cons, List.not_mem_nil, or_false] at hmem
    rcases hmem with h1 | h2 | h3
    · rcases step1_msg fs with hx | hx <;> rw [hx] at h1 <;> exact absurd h1 (by decide)
    · rcases step2_msg_any skill g (step1 fs).1 with hx | hx | hx <;> rw [hx] at h2
      · cases g <;> exact absurd h2 (by decide)
      · exact absurd h2 (by decide)
      · exact absurd h2 (by decide)
    · rcases step3_msg_marker bootstrap _ e hselX hm with hx | hx <;> rw [hx] at h3 <;>
        exact absurd h3 (by decide)

/-- Witness for C10: the file body says `### Priors notes` — a longer
heading, not the standalone marker line — yet init treats the bootstrap
as present and appends nothing. -/
theorem claim_C10_witness :
    instrSel C10FS = some C10DOC
    ∧ hasSub PRIORS_MARKER C10DOC = true
    ∧ (instrSel (initFS (ofStr "S") (ofStr "## Priors\nb") false C10FS) = some C10DOC
        ∧ (msgAlreadyHas "CLAUDE.md" ∈ (initNode (ofStr "S") (ofStr "## Priors\nb") false C10FS).2
            ∨ msgAlreadyHas "AGENTS.md" ∈ (initNode (ofStr "S") (ofStr "## Priors\nb") false C10FS).2)
        ∧ msgAppended "CLAUDE.md" ∉ (initNode (ofStr "S") (ofStr "## Priors\nb") false C10FS).2
        ∧ msgAppended "AGENTS.md" ∉ (initNode (ofStr "S") (ofStr "## Priors\nb") false C10FS).2) :=
  ⟨rfl, by decide,
   claim_C10_marker_is_substring (ofStr "S") (ofStr "## Priors\nb") C10DOC false C10FS rfl
     (by decide)⟩

/-- Claim C6: the Status Reporter extracts topic, summary, entry count
and last-updated by independent pattern match within the metadata block
(entry count 0 when the digits pattern is absent, `unknown` when the
date line is absent); the `data.md` example is reported with
topic=analytics, entries=3, updated=2024-01-01; and the printed totals
are always the `.md` file count and the sum of per-file entry counts
(3 and 5 giving 8 over 2 files). -/
theorem claim_C6_status_fields :
    reportFile (ofStr "data.md") C6DATA
      = { topic := ofStr "analytics", summary := ofStr "test data",
          entries := 3, updated := ofStr "2024-01-01" }
    ∧ (statusRun C6FS).2
      = .report
          [(ofStr "alpha.md",
            { topic := ofStr "alpha", summary := [], entries := 3, updated := ofStr "unknown" }),
           (ofStr "beta.md",
            { topic := ofStr "beta", summary := [], entries := 5, updated := ofStr "unknown" })]
          2 8
    ∧ (∀ (fs : FS) (files : List (Str × FileReport)) (n tot : Nat),
        (statusRun fs).2 = .report files n tot →
        n = files.length ∧ tot = files.foldl (fun acc p => acc + p.2.entries) 0)
    ∧ (∀ (name content fm : Str), fmExtract content = some fm →
        (digMatch (ofStr "entries:") fm = none → (reportFile name content).entries = 0)
        ∧ (fieldMatch (ofStr "last_updated:") fm = none →
            (reportFile name content).updated = ofStr "unknown")) := by
  refine ⟨by decide, by decide, ?_, ?_⟩
  · intro fs files n tot h
    unfold statusRun at h
    split at h
    · simp at h
    · dsimp only at h
      split at h
      · simp at h
      · dsimp only at h
        rw [StatusResult.report.injEq] at h
        obtain ⟨h1, h2, h3⟩ := h
        subst h1
        subst h2
        subst h3
        exact ⟨(List.length_map _ _).symm, rfl⟩
  · intro name content fm hfm
    constructor
    · intro hent
      unfold reportFile
      rw [hfm]
      simp [hent]
    · intro hdate
      unfold reportFile
      rw [hfm]
      simp [hdate]

/-- Witness for C6 at a block that has a topic but no entry count and no
date: both defaults fire. -/
theorem claim_C6_witness :
    fmExtract (ofStr "---\ntopic: t\n---\n") = some (ofStr "topic: t")
    ∧ digMatch (ofStr "entries:") (ofStr "topic: t") = none
    ∧ fieldMatch (ofStr "last_updated:") (ofStr "topic: t") = none
    ∧ (reportFile (ofStr "x.md") (ofStr "---\ntopic: t\n---\n")).entries = 0
    ∧ (reportFile (ofStr "x.md") (ofStr "---\ntopic: t\n---\n")).updated = ofStr "unknown" :=
  ⟨by decide, by decide, by decide,
   (claim_C6_status_fields.2.2.2 (ofStr "x.md") (ofStr "---\ntopic: t\n---\n")
      (ofStr "topic: t") (by decide)).1 (by decide),
   (claim_C6_status_fields.2.2.2 (ofStr "x.md") (ofStr "---\ntopic: t\n---\n")
      (ofStr "topic: t") (by decide)).2 (by decide)⟩

/-- Claim C7 counterexample: `C7CEX` has no metadata block under the
delimiter definition the claim itself states (no later line containing
only three hyphens), yet the regex of the code accepts `--- x` as the closing
delimiter and reports topic `hacked` instead of the filename-derived
`data`. -/
theorem claim_C7_counterexample :
    specHasBlock C7CEX = false
    ∧ (reportFile (ofStr "data.md") C7CEX).topic = ofStr "hacked"
    ∧ (reportFile (ofStr "data.md") C7CEX).topic ≠ ofStr "data" := by
  exact ⟨by decide, by decide, by decide⟩

/-- Claim C7, amended: for every knowledge file on which the block
pattern of the code fails (the content does not start with `---` plus newline
followed eventually by newline plus `---`), the Status Reporter reports
topic equal to the file name with its first `.md` occurrence removed
(the name without extension whenever `.md` occurs only as the suffix),
entries 0 and updated `unknown`, and does not fail. -/
theorem claim_C7_no_block_defaults (name content : Str) (h : fmExtract content = none) :
    reportFile name content
      = { topic := replaceFirst (ofStr ".md") [] name, summary := [],
          entries := 0, updated := ofStr "unknown" } := by
  unfold reportFile
  rw [h]

/-- Witness for the amended C7 at a plain text file. -/
theorem claim_C7_witness :
    fmExtract (ofStr "plain notes, no metadata block") = none
    ∧ reportFile (ofStr "notes.md") (ofStr "plain notes, no metadata block")
        = { topic := replaceFirst (ofStr ".md") [] (ofStr "notes.md"), summary := [],
            entries := 0, updated := ofStr "unknown" } :=
  ⟨by decide,
   claim_C7_no_block_defaults (ofStr "notes.md") (ofStr "plain notes, no metadata block")
     (by decide)⟩

/-- Claim C8: the Status Reporter never mutates the filesystem; on an
absent knowledge directory it reports not-initialized and returns, and a
`status` invocation exits 0. -/
theorem claim_C8_status_pure (fs : FS) (sp sf bp bf : Option Str) :
    (statusRun fs).1 = fs
    ∧ (fs.priorsDir = false → (statusRun fs).2 = .noDir)
    ∧ cliExit (some "status") sp sf bp bf = 0 := by
  refine ⟨?_, ?_, rfl⟩
  · unfold statusRun
    split
    · rfl
    · dsimp only
      split
      · rfl
      · rfl
  · intro h
    unfold statusRun
    rw [if_pos h]

/-- Witness for C8 at the empty project. -/
theorem claim_C8_witness :
    FS0.priorsDir = false
    ∧ (statusRun FS0).1 = FS0
    ∧ (statusRun FS0).2 = .noDir
    ∧ cliExit (some "status") none none none none = 0 :=
  ⟨rfl, (claim_C8_status_pure FS0 none none none none).1,
   (claim_C8_status_pure FS0 none none none none).2.1 rfl,
   (claim_C8_status_pure FS0 none none none none).2.2⟩

/-- Claim C9: the process exits 1 exactly when a required bundled asset
has no existing candidate location (for `init`, which needs both assets)
or the command is unrecognized; otherwise it exits 0, and the asset
failure carries the diagnostic listing both candidate paths. -/
theorem claim_C9_exit_codes (cmd : Option String) (sp sf bp bf : Option Str)
    (pPath fPath : String) :
    (cliExit cmd sp sf bp bf = 0 ∨ cliExit cmd sp sf bp bf = 1)
    ∧ (cliExit cmd sp sf bp bf = 1 ↔
        ((∃ c, cmd = some c ∧ recognizedCmd c = false)
          ∨ (cmd = some "init" ∧ ((sp = none ∧ sf = none) ∨ (bp = none ∧ bf = none)))))
    ∧ (readAsset sp sf pPath fPath = Except.error [pPath, fPath] ↔ (sp = none ∧ sf = none)) := by
  have hra : readAsset sp sf pPath fPath = Except.error [pPath, fPath]
      ↔ (sp = none ∧ sf = none) := by
    unfold readAsset
    cases sp <;> cases sf <;> simp
  refine ⟨?_, ?_, hra⟩
  · cases cmd with
    | none => exact Or.inl rfl
    | some c =>
      by_cases h1 : c = "init"
      · subst h1
        cases sp <;> cases sf <;> cases bp <;> cases bf <;> simp [cliExit, readAsset]
      · by_cases h2 : c = "status"
        · subst h2; exact Or.inl rfl
        · by_cases h3 : c = "help"
          · subst h3; exact Or.inl rfl
          · by_cases h4 : c = "--help"
            · subst h4; exact Or.inl rfl
            · by_cases h5 : c = "-h"
              · subst h5; exact Or.inl rfl
              · right
                simp [cliExit, h1, h2, h3, h4, h5]
  · cases cmd with
    | none => simp [cliExit]
    | some c =>
      by_cases h1 : c = "init"
      · subst h1
        cases sp <;> cases sf <;> cases bp <;> cases bf <;>
          simp [cliExit, readAsset, recognizedCmd]
      · by_cases h2 : c = "status"
        · subst h2; simp [cliExit, recognizedCmd]
        · by_cases h3 : c = "help"
          · subst h3; simp [cliExit, recognizedCmd]
          · by_cases h4 : c = "--help"
            · subst h4; simp [cliExit, recognizedCmd]
            · by_cases h5 : c = "-h"
              · subst h5; simp [cliExit, recognizedCmd]
              · simp [cliExit, recognizedCmd, h1, h2, h3, h4, h5]
